import Mathlib

/-!
Shallow embedding of the command-execution / monitoring / settings pipeline of
`src/main_gui.py` (marson-l/stormshield-gui-toolbox).

Python string primitives (`str.strip`, `str.split`, substring containment,
`str.startswith`) are embedded as structurally recursive functions on
`List Char`, so that every definition evaluates inside the kernel.
The SDK client is modelled as an oracle: each `send_command` call either
returns the displayed text `str(result)` (`SendResult.ok`) or raises
(`SendResult.exn`).  Python floats appear only in the progress computation
`int(((i + 1) / total) * 100)`, which is embedded as the rational truncation
`(100 * (i + 1)) / total` on `Nat`.
-/

/-- Whitespace characters stripped by Python's `str.strip()`. -/
def pyIsSpace (c : Char) : Bool :=
  c == (' ') || c == ('\t') || c == ('\n') || c == ('\r') ||
  c == (Char.ofNat 11) || c == (Char.ofNat 12)

/-- Python `str.strip()` on the character list: drop whitespace on both ends. -/
def pyStripList (l : List Char) : List Char :=
  ((l.dropWhile pyIsSpace).reverse.dropWhile pyIsSpace).reverse

/-- Python `str.strip()`. -/
def pyStrip (s : String) : String :=
  String.mk (pyStripList s.data)

/-- Split a character list at newline characters; embeds Python `str.split('\n')`
(`"".split('\n') == ['']`, separators at the ends produce empty fields). -/
def splitNL : List Char → List (List Char)
  | [] => [[]]
  | c :: rest =>
      let r := splitNL rest
      if c == ('\n') then [] :: r
      else (c :: r.headD []) :: r.tail

/-- Python `text.split('\n')` on strings. -/
def pyLines (s : String) : List String :=
  (splitNL s.data).map String.mk

/-- Does `pat` occur as a contiguous sublist of the second argument?
Embeds Python's substring test `pat in s` (for the patterns used here). -/
def subOccurs (pat : List Char) : List Char → Bool
  | [] => pat.isEmpty
  | c :: rest => List.isPrefixOf pat (c :: rest) || subOccurs pat rest

/-- Python `pat in s` for strings. -/
def strOccurs (s pat : String) : Bool :=
  subOccurs pat.data s.data

/-- Outcome of one `client.send_command` call: the text that `str(result)`
displays, or the message of a raised exception.  (`src/main_gui.py`, the SDK
client is external; this is its interface as used by the threads.) -/
inductive SendResult where
  | ok (text : String)
  | exn (msg : String)
deriving DecidableEq

/-- One payload of the `command_executed` signal
(`src/main_gui.py:145`, signature `(command, output, success)`). -/
structure CmdEvent where
  command : String
  output : String
  success : Bool
deriving DecidableEq

/-- An event emitted by `CommandExecutorThread.run`: a `command_executed`
signal or a `progress` signal (`src/main_gui.py:145-146`). -/
inductive DispatchEvent where
  | cmdResult (e : CmdEvent)
  | progress (value : Nat)
deriving DecidableEq

/-- Fuel-bounded binary logarithm: `natLog2Aux fuel n` is `⌊log2 n⌋` whenever
`1 ≤ n ≤ fuel` (structural recursion on the fuel keeps it kernel-computable). -/
def natLog2Aux : Nat → Nat → Nat
  | 0, _ => 0
  | fuel + 1, n => if 2 ≤ n then natLog2Aux fuel (n / 2) + 1 else 0

/-- The binary logarithm `⌊log2 n⌋` of a positive natural number. -/
def natLog2 (n : Nat) : Nat := natLog2Aux n n

/-- Round the nonnegative fraction `P / Q` to the nearest integer with ties to
even — the rounding step of IEEE 754 round-to-nearest-even, in integer
arithmetic. -/
def rneDiv (P Q : Nat) : Nat :=
  let n := P / Q
  let r := P % Q
  if 2 * r < Q then n
  else if Q < 2 * r then n + 1
  else if n % 2 = 0 then n else n + 1

/-- The binade exponent `⌊log2 (p / q)⌋` of a positive rational, in integer
arithmetic. -/
def ratExp (p q : Nat) : ℤ :=
  let lp := natLog2 p
  let lq := natLog2 q
  if q * 2 ^ lp ≤ p * 2 ^ lq then (lp : ℤ) - (lq : ℤ) else (lp : ℤ) - (lq : ℤ) - 1

/-- Round the nonnegative rational `p / q` to an IEEE 754 binary64 value,
returned as a dyadic pair `(n, u)` denoting `n * 2 ^ u`: the unit in the last
place is `2 ^ u` with `u = max (-1074) (⌊log2 (p/q)⌋ - 52)` (53-bit normal
significands, subnormals below `2 ^ -1022`), and the scaled significand is
rounded to nearest with ties to even.  This is the correctly-rounded result
CPython produces for `int / int` true division. -/
def roundRatToDouble (p q : Nat) : Nat × ℤ :=
  let u : ℤ := max (-1074) (ratExp p q - 52)
  (rneDiv (p * 2 ^ (-u).toNat) (q * 2 ^ u.toNat), u)

/-- The rational value `n * 2 ^ u` of a dyadic pair. -/
def dyadicVal (f : Nat × ℤ) : ℚ :=
  (f.1 : ℚ) * (2 : ℚ) ^ f.2

/-- The exact product of a dyadic value with 100, as a numerator/denominator
pair: the argument of the second rounding in `float * 100` (the float product
is the correctly-rounded exact product). -/
def timesHundred (f : Nat × ℤ) : Nat × Nat :=
  if 0 ≤ f.2 then (100 * f.1 * 2 ^ f.2.toNat, 1) else (100 * f.1, 2 ^ (-f.2).toNat)

/-- Truncation of a nonnegative dyadic value toward zero — Python's `int()` of
a nonnegative float. -/
def dyadicFloor (n : Nat) (u : ℤ) : Nat :=
  if 0 ≤ u then n * 2 ^ u.toNat else n / 2 ^ (-u).toNat

/-- The progress value `int(((i + 1) / total_commands) * 100)` of
`src/main_gui.py:169`, embedded faithfully to IEEE 754 binary64 arithmetic:
the quotient `completed / total` is correctly rounded to a double (CPython's
`int / int` true division), the product with 100 is correctly rounded again
(100 converts to a double exactly), and `int()` truncates toward zero.
No overflow can occur since `completed ≤ total` at every call site.
The `total = 0` guard covers a division the program never reaches (the loop
body only runs for a non-empty command list). -/
def progressAt (completed total : Nat) : Nat :=
  if total = 0 then 0
  else
    let f1 := roundRatToDouble completed total
    let pq := timesHundred f1
    let f2 := roundRatToDouble pq.1 pq.2
    dyadicFloor f2.1 f2.2

/-- The body of the `try/except` for one command in `CommandExecutorThread.run`
(`src/main_gui.py:157-167`): on a returned result the displayed text is
annotated by the `"100 code="` marker test and the success flag emitted is
`True`; on an exception the output is `"Error: " + str(e)` with flag `False`.
(The local variable `output` computed at line 159 is dead: it is overwritten
by `result = str(result)` before any emit, so it is not modelled.) -/
def processCommand (send : String → SendResult) (cmd : String) : CmdEvent :=
  match send cmd with
  | SendResult.ok text =>
      if strOccurs text ("100 code=") then
        { command := cmd, output := text ++ (" | Command executed successfully."), success := true }
      else
        { command := cmd, output := text ++ (" | Command execution failed."), success := true }
  | SendResult.exn msg =>
      { command := cmd, output := ("Error: ") ++ msg, success := false }

/-- The loop of `CommandExecutorThread.run` (`src/main_gui.py:153-173`) from
absolute index `i`: each command with non-empty `strip()` produces its
`command_executed` event followed by a `progress` event; blank commands are
skipped entirely.  `send` is the oracle for the `i`-th `send_command` call. -/
def runFromIndex (send : Nat → String → SendResult) (total : Nat) :
    Nat → List String → List DispatchEvent
  | _, [] => []
  | i, cmd :: rest =>
      if pyStrip cmd ≠ ("") then
        DispatchEvent.cmdResult (processCommand (send i) cmd) ::
        DispatchEvent.progress (progressAt (i + 1) total) ::
        runFromIndex send total (i + 1) rest
      else
        runFromIndex send total (i + 1) rest

/-- `CommandExecutorThread.run` (`src/main_gui.py:153-173`): the full ordered
stream of signals emitted for a command list. -/
def CommandExecutorThread.run (send : Nat → String → SendResult)
    (commands : List String) : List DispatchEvent :=
  runFromIndex send commands.length 0 commands

/-- The canonical interleaved trace for an all-non-blank command list starting
at index `i`: result of command `i`, then its progress value, then the rest.
Used to state the ordering guarantee of the dispatcher. -/
def dispatchTrace (send : Nat → String → SendResult) (total : Nat) :
    Nat → List String → List DispatchEvent
  | _, [] => []
  | i, cmd :: rest =>
      DispatchEvent.cmdResult (processCommand (send i) cmd) ::
      DispatchEvent.progress (progressAt (i + 1) total) ::
      dispatchTrace send total (i + 1) rest

/-- The `command_executed` payloads of an event stream, in emission order. -/
def cmdEventsOf (l : List DispatchEvent) : List CmdEvent :=
  l.filterMap fun e =>
    match e with
    | DispatchEvent.cmdResult c => some c
    | DispatchEvent.progress _ => none

/-- The `progress` values of an event stream, in emission order. -/
def progressValues (l : List DispatchEvent) : List Nat :=
  l.filterMap fun e =>
    match e with
    | DispatchEvent.cmdResult _ => none
    | DispatchEvent.progress v => some v

/-- The command-list extraction of `StormshieldGUI.execute_commands`
(`src/main_gui.py:1503-1506`): if the text has non-blank content, keep the
stripped form of every line whose stripped form is non-empty and does not
start with the comment marker; otherwise the command list stays empty. -/
def execute_commands_filter (text : String) : List String :=
  if pyStrip text ≠ ("") then
    ((pyLines text).filter fun c =>
        !(decide (pyStrip c = (""))) &&
        !(List.isPrefixOf ("#").data (pyStrip c).data)).map pyStrip
  else []

/-- One iteration of the `while self.is_running` loop of `MonitoringThread.run`
(`src/main_gui.py:192-207`), for monitor type `t`: returns the list of command
strings actually passed to `send_command` and the text published via the
`monitoring_data` signal.  The whole branch is wrapped in one `try/except`,
so an exception aborts the iteration's remaining sends and publishes
`"Error: " + str(e)`.  `send` is the oracle for the iteration's calls in order. -/
def monitorIteration (send : Nat → String → SendResult) (t : String) :
    List String × String :=
  if t = ("system") then
    match send 0 ("monitor system") with
    | SendResult.ok s => ([("monitor system")], s)
    | SendResult.exn m => ([("monitor system")], ("Error: ") ++ m)
  else if t = ("ipsec") then
    match send 0 ("monitor getikesa") with
    | SendResult.exn m => ([("monitor getikesa")], ("Error: ") ++ m)
    | SendResult.ok s1 =>
        match send 1 ("monitor getsa") with
        | SendResult.exn m =>
            ([("monitor getikesa"), ("monitor getsa")], ("Error: ") ++ m)
        | SendResult.ok s2 =>
            ([("monitor getikesa"), ("monitor getsa")], s1 ++ ("\n") ++ s2)
  else if t = ("interface") then
    match send 0 ("monitor interface") with
    | SendResult.ok s => ([("monitor interface")], s)
    | SendResult.exn m => ([("monitor interface")], ("Error: ") ++ m)
  else
    match send 0 (("monitor ") ++ t) with
    | SendResult.ok s => ([("monitor ") ++ t], s)
    | SendResult.exn m => ([("monitor ") ++ t], ("Error: ") ++ m)

/-- Observable events of the Monitor Poller: a `send_command` call, a
`monitoring_data` publication, or the return of `stop_monitoring` to its
caller. -/
inductive MonitorEvent where
  | send (cmd : String)
  | publish (text : String)
  | stopReturn
deriving DecidableEq

/-- Is the event a snapshot publication? -/
def isPublish : MonitorEvent → Bool
  | MonitorEvent.publish _ => true
  | _ => false

/-- Is the event the return of `stop_monitoring`? -/
def isStopReturn : MonitorEvent → Bool
  | MonitorEvent.stopReturn => true
  | _ => false

/-- The events of one monitor-loop iteration: its sends in order, then its
single publication. -/
def monitorIterEvents (send : Nat → String → SendResult) (t : String) :
    List MonitorEvent :=
  ((monitorIteration send t).1.map MonitorEvent.send) ++
  [MonitorEvent.publish (monitorIteration send t).2]

/-- The events of a `MonitoringThread.run` execution that performs exactly `k`
iterations before the `is_running` check observes `False` and the loop exits
(`src/main_gui.py:192`); `sched i` is the send oracle of iteration `i`. -/
def monitorRunEvents (sched : Nat → Nat → String → SendResult) (t : String)
    (k : Nat) : List MonitorEvent :=
  (List.range k).flatMap fun i => monitorIterEvents (sched i) t

/-- The full event trace of a stopped monitor: `stop_monitoring`
(`src/main_gui.py:212-215`) clears `is_running` — so the loop runs only
finitely many (`k`) iterations — and then blocks in `wait()` until the thread
has exited; its return is therefore ordered after every thread event. -/
def monitorStopTrace (sched : Nat → Nat → String → SendResult) (t : String)
    (k : Nat) : List MonitorEvent :=
  monitorRunEvents sched t k ++ [MonitorEvent.stopReturn]

/-- A value held by the persistent `QSettings` store. -/
inductive SettingValue where
  | str (s : String)
  | nat (n : Nat)
  | strList (l : List String)
  | bytes
deriving DecidableEq

/-- The persistent settings store: key/value pairs, newest entry first. -/
abbrev Store := List (String × SettingValue)

/-- `settings.setValue(key, v)`: the new binding shadows and replaces any
previous binding of the same key. -/
def setValue (st : Store) (k : String) (v : SettingValue) : Store :=
  (k, v) :: st.filter fun p => !(decide (p.1 = k))

/-- `settings.value(key)`: the current binding of a key, if any. -/
def getValue (st : Store) (k : String) : Option SettingValue :=
  (st.find? fun p => decide (p.1 = k)).map Prod.snd

/-- `StormshieldGUI.get_saved_profiles` (`src/main_gui.py:1941-1953`):
read `profiles/list` with the same type juggling as the source
(a bare string becomes a one-element list unless empty; anything else
becomes the empty list). -/
def get_saved_profiles (st : Store) : List String :=
  match getValue st ("profiles/list") with
  | some (SettingValue.strList l) => l
  | some (SettingValue.str s) => if s = ("") then [] else [s]
  | some _ => []
  | none => []

/-- `StormshieldGUI.save_settings` (`src/main_gui.py:1857-1870`): writes only
the window geometry blob. -/
def save_settings (st : Store) : Store :=
  setValue st ("window/geometry") SettingValue.bytes

/-- `StormshieldGUI.save_connection_info` (`src/main_gui.py:1872-1915`):
strip host and user, refuse if either is empty, otherwise write the four
profile fields under `profiles/<name>` and append the name to
`profiles/list` when it is not already present.  An absent profile name
(`None` or empty) becomes `"default"`.  The password is not an input of this
operation. -/
def save_connection_info (st : Store) (profile rawHost rawUser : String)
    (port : Nat) (date : String) : Store × Bool :=
  let host := pyStrip rawHost
  let user := pyStrip rawUser
  if host = ("") ∨ user = ("") then (st, false)
  else
    let name := if profile = ("") then ("default") else profile
    let sec := ("profiles/") ++ name
    let st1 := setValue st (sec ++ ("/host")) (SettingValue.str host)
    let st2 := setValue st1 (sec ++ ("/port")) (SettingValue.nat port)
    let st3 := setValue st2 (sec ++ ("/user")) (SettingValue.str user)
    let st4 := setValue st3 (sec ++ ("/saved_date")) (SettingValue.str date)
    let ps := get_saved_profiles st4
    if name ∈ ps then (st4, true)
    else (setValue st4 ("profiles/list") (SettingValue.strList (ps ++ [name])), true)

/-- Does key `k` fall in the section removed by
`settings.remove(f"profiles/{name}")`: the key itself or any subkey. -/
def inSection (name k : String) : Bool :=
  decide (k = ("profiles/") ++ name) ||
  List.isPrefixOf (("profiles/") ++ name ++ ("/")).data k.data

/-- `settings.remove(f"profiles/{name}")`: drop the key and all its subkeys. -/
def removeKeyTree (st : Store) (name : String) : Store :=
  st.filter fun p => !(inSection name p.1)

/-- `StormshieldGUI.delete_connection_profile` (`src/main_gui.py:1955-1975`):
remove the name from `profiles/list` when present (first occurrence, as
Python `list.remove`), then remove the whole `profiles/<name>` section;
always reports success. -/
def delete_connection_profile (st : Store) (name : String) : Store × Bool :=
  let ps := get_saved_profiles st
  let st1 :=
    if name ∈ ps then setValue st ("profiles/list") (SettingValue.strList (ps.erase name))
    else st
  (removeKeyTree st1 name, true)

/-- The key of one persisted profile field of `save_connection_info`. -/
def ProfileKey (name k : String) : Prop :=
  k = ("profiles/") ++ name ++ ("/host") ∨
  k = ("profiles/") ++ name ++ ("/port") ∨
  k = ("profiles/") ++ name ++ ("/user") ∨
  k = ("profiles/") ++ name ++ ("/saved_date")

/-- Every key shape any store-writing operation of the program produces. -/
def KeyShape (k : String) : Prop :=
  k = ("window/geometry") ∨ k = ("profiles/list") ∨ ∃ name, ProfileKey name k

/-- The stores reachable from the empty store through the store-writing
operations of the program: `save_settings`, `save_connection_info` and
`delete_connection_profile`. -/
inductive Reachable : Store → Prop where
  | empty : Reachable []
  | saveSettings (st : Store) : Reachable st → Reachable (save_settings st)
  | saveConn (st : Store) (profile rawHost rawUser : String) (port : Nat)
      (date : String) : Reachable st →
      Reachable (save_connection_info st profile rawHost rawUser port date).1
  | deleteProfile (st : Store) (name : String) : Reachable st →
      Reachable (delete_connection_profile st name).1

/-- `StormshieldGUI.add_to_command_history` (`src/main_gui.py:1734-1747`):
a command already in the history leaves it unchanged; otherwise it is
inserted at the front and the list is truncated to 20 entries when it
exceeds 20. -/
def add_to_command_history (hist : List String) (command : String) : List String :=
  if command ∈ hist then hist
  else
    let l := command :: hist
    if l.length > 20 then l.take 20 else l

/-- `StormshieldGUI.clear_command_history` (`src/main_gui.py:1755-1759`). -/
def clear_command_history (_hist : List String) : List String :=
  []

/-- A key whose final path segment is the password field.  No reachable store
may contain such a key. -/
def NoPasswordKey (k : String) : Prop :=
  ∀ name, k ≠ ("profiles/") ++ name ++ ("/password")

/-- The batch text of the end-to-end filtering scenario: a valid command, a
comment line, a blank line, and a syntactically valid but bogus command. -/
def batchScenarioText : String :=
  ("config network interface show\n#comment\n\nbogus_cmd")

/-- A store produced by saving one profile named `alpha` into the empty store. -/
def demoProfileStore : Store :=
  (save_connection_info [] ("alpha") ("h") ("u") 443 ("d")).1

/-! Helper lemmas about the Command Dispatcher. -/

theorem processCommand_command (send : String → SendResult) (cmd : String) :
    (processCommand send cmd).command = cmd := by
  unfold processCommand
  cases send cmd with
  | ok text => by_cases h : strOccurs text ("100 code=") <;> simp [h]
  | exn msg => rfl

theorem runFromIndex_eq_dispatchTrace (send : Nat → String → SendResult)
    (total : Nat) (cmds : List String) (hnb : ∀ c ∈ cmds, pyStrip c ≠ (""))
    (i : Nat) : runFromIndex send total i cmds = dispatchTrace send total i cmds := by
  induction cmds generalizing i with
  | nil => rfl
  | cons cmd rest ih =>
      have h1 : pyStrip cmd ≠ ("") := hnb cmd (List.mem_cons_self cmd rest)
      have h2 : ∀ c ∈ rest, pyStrip c ≠ ("") := fun c hc => hnb c (List.mem_cons_of_mem _ hc)
      simp only [runFromIndex, dispatchTrace, if_pos h1, ih h2]

theorem run_eq_dispatchTrace (send : Nat → String → SendResult)
    (cmds : List String) (hnb : ∀ c ∈ cmds, pyStrip c ≠ ("")) :
    CommandExecutorThread.run send cmds = dispatchTrace send cmds.length 0 cmds :=
  runFromIndex_eq_dispatchTrace send cmds.length cmds hnb 0

theorem cmdEventsOf_dispatchTrace_cons (send : Nat → String → SendResult)
    (total i : Nat) (cmd : String) (rest : List String) :
    cmdEventsOf (dispatchTrace send total i (cmd :: rest)) =
      processCommand (send i) cmd :: cmdEventsOf (dispatchTrace send total (i + 1) rest) := by
  simp [cmdEventsOf, dispatchTrace]

theorem progressValues_dispatchTrace_cons (send : Nat → String → SendResult)
    (total i : Nat) (cmd : String) (rest : List String) :
    progressValues (dispatchTrace send total i (cmd :: rest)) =
      progressAt (i + 1) total :: progressValues (dispatchTrace send total (i + 1) rest) := by
  simp [progressValues, dispatchTrace]

theorem cmdEventsOf_dispatchTrace_map_command (send : Nat → String → SendResult)
    (total : Nat) (cmds : List String) (i : Nat) :
    (cmdEventsOf (dispatchTrace send total i cmds)).map CmdEvent.command = cmds := by
  induction cmds generalizing i with
  | nil => rfl
  | cons cmd rest ih =>
      rw [cmdEventsOf_dispatchTrace_cons]
      simp [processCommand_command, ih]

theorem cmdEventsOf_dispatchTrace_getElem? (send : Nat → String → SendResult)
    (total : Nat) (cmds : List String) (i j : Nat) :
    (cmdEventsOf (dispatchTrace send total i cmds))[j]? =
      (cmds[j]?).map fun c => processCommand (send (i + j)) c := by
  induction cmds generalizing i j with
  | nil => simp [dispatchTrace, cmdEventsOf]
  | cons cmd rest ih =>
      rw [cmdEventsOf_dispatchTrace_cons]
      cases j with
      | zero => simp
      | succ j =>
          have harith : i + 1 + j = i + (j + 1) := by omega
          simp only [List.getElem?_cons_succ, ih (i + 1) j, harith]

theorem progressValues_dispatchTrace_eq (send : Nat → String → SendResult)
    (total : Nat) (cmds : List String) (i : Nat) :
    progressValues (dispatchTrace send total i cmds) =
      (List.range cmds.length).map fun j => progressAt (i + 1 + j) total := by
  induction cmds generalizing i with
  | nil => rfl
  | cons cmd rest ih =>
      rw [progressValues_dispatchTrace_cons, ih (i + 1)]
      simp only [List.length_cons, List.range_succ_eq_map, List.map_cons, List.map_map,
        Nat.add_zero]
      refine congrArg₂ _ rfl ?_
      refine List.map_congr_left fun j _ => ?_
      simp only [Function.comp_apply]
      have : i + 1 + 1 + j = i + 1 + (j + 1) := by omega
      rw [this]

theorem natLog2Aux_spec (fuel : Nat) : ∀ n : Nat, 0 < n → n ≤ fuel →
    2 ^ natLog2Aux fuel n ≤ n ∧ n < 2 ^ (natLog2Aux fuel n + 1) := by
  induction fuel with
  | zero => intro n h1 h2; omega
  | succ fuel ih =>
      intro n h1 h2
      unfold natLog2Aux
      by_cases h : 2 ≤ n
      · rw [if_pos h]
        obtain ⟨hl, hu⟩ := ih (n / 2) (by omega) (by omega)
        constructor
        · calc 2 ^ (natLog2Aux fuel (n / 2) + 1)
              = 2 ^ natLog2Aux fuel (n / 2) * 2 := by rw [pow_succ]
            _ ≤ n := by omega
        · calc n < (n / 2 + 1) * 2 := by omega
            _ ≤ 2 ^ (natLog2Aux fuel (n / 2) + 1) * 2 := by omega
            _ = 2 ^ (natLog2Aux fuel (n / 2) + 1 + 1) := by rw [pow_succ 2 (natLog2Aux fuel (n / 2) + 1)]
      · rw [if_neg h]
        have hn : n = 1 := by omega
        subst hn
        norm_num

theorem natLog2_spec (n : Nat) (hn : 0 < n) :
    2 ^ natLog2 n ≤ n ∧ n < 2 ^ (natLog2 n + 1) :=
  natLog2Aux_spec n n hn le_rfl

theorem two_zpow_toNat (u : ℤ) :
    (2 : ℚ) ^ ((-u).toNat) / (2 : ℚ) ^ (u.toNat) = (2 : ℚ) ^ (-u) := by
  rcases le_or_lt 0 u with h | h
  · have h1 : (-u).toNat = 0 := by omega
    have h2 : (u.toNat : ℤ) = u := Int.toNat_of_nonneg h
    rw [h1, pow_zero, one_div, ← zpow_natCast (2 : ℚ) u.toNat, h2, zpow_neg]
  · have h1 : u.toNat = 0 := by omega
    have h2 : ((-u).toNat : ℤ) = -u := Int.toNat_of_nonneg (by omega)
    rw [h1, pow_zero, div_one, ← zpow_natCast (2 : ℚ) (-u).toNat, h2]

theorem scaled_frac (p q : Nat) (u : ℤ) :
    ((p * 2 ^ (-u).toNat : ℕ) : ℚ) / ((q * 2 ^ u.toNat : ℕ) : ℚ) =
      ((p : ℚ) / q) * (2 : ℚ) ^ (-u) := by
  push_cast
  rw [mul_div_mul_comm, two_zpow_toNat]

theorem rneDiv_ge (P Q : Nat) : P / Q ≤ rneDiv P Q := by
  simp only [rneDiv]
  split_ifs <;> omega

theorem rneDiv_le (P Q : Nat) : rneDiv P Q ≤ P / Q + 1 := by
  simp only [rneDiv]
  split_ifs <;> omega

theorem cast_div_lt_half {r Q : Nat} (hQ : 0 < Q) :
    (r : ℚ) / Q < 1 / 2 ↔ 2 * r < Q := by
  rw [div_lt_div_iff₀ (by exact_mod_cast hQ) (by norm_num : (0 : ℚ) < 2), one_mul,
    show (r : ℚ) * 2 = ((r * 2 : ℕ) : ℚ) by push_cast; ring, Nat.cast_lt]
  omega

theorem cast_half_lt {r Q : Nat} (hQ : 0 < Q) :
    (1 : ℚ) / 2 < (r : ℚ) / Q ↔ Q < 2 * r := by
  rw [div_lt_div_iff₀ (by norm_num : (0 : ℚ) < 2) (by exact_mod_cast hQ), one_mul,
    show (r : ℚ) * 2 = ((r * 2 : ℕ) : ℚ) by push_cast; ring, Nat.cast_lt]
  omega

theorem natFloor_cast_div (P Q : Nat) : ⌊(P : ℚ) / (Q : ℚ)⌋₊ = P / Q := by
  rw [Nat.floor_div_nat, Nat.floor_natCast]

theorem cast_div_decomp (P Q : Nat) (hQ : 0 < Q) :
    (P : ℚ) / Q = ((P / Q : ℕ) : ℚ) + ((P % Q : ℕ) : ℚ) / Q := by
  have hQ' : (Q : ℚ) ≠ 0 := by exact_mod_cast hQ.ne'
  rw [show (P : ℚ) = ((Q * (P / Q) + P % Q : ℕ) : ℚ) by rw [Nat.div_add_mod]]
  push_cast
  field_simp
  ring

theorem cast_div_eq_half {r Q : Nat} (hQ : 0 < Q) :
    (r : ℚ) / Q = 1 / 2 ↔ 2 * r = Q := by
  rw [div_eq_div_iff (by exact_mod_cast hQ.ne' : (Q : ℚ) ≠ 0) (by norm_num : (2 : ℚ) ≠ 0),
    one_mul, show (r : ℚ) * 2 = ((r * 2 : ℕ) : ℚ) by push_cast; ring, Nat.cast_inj]
  omega

theorem rneDiv_low_of {P Q : Nat} (h : 2 * (P % Q) < Q) : rneDiv P Q = P / Q := by
  simp only [rneDiv]
  rw [if_pos h]

theorem rneDiv_high_of {P Q : Nat} (h : Q < 2 * (P % Q)) : rneDiv P Q = P / Q + 1 := by
  simp only [rneDiv]
  rw [if_neg (by omega), if_pos h]

theorem rneDiv_low_tie_even {P Q : Nat} (h1 : 2 * (P % Q) = Q) (h2 : P / Q % 2 = 0) :
    rneDiv P Q = P / Q := by
  simp only [rneDiv]
  rw [if_neg (by omega), if_neg (by omega), if_pos h2]

theorem rneDiv_high_tie_odd {P Q : Nat} (h1 : 2 * (P % Q) = Q) (h2 : P / Q % 2 = 1) :
    rneDiv P Q = P / Q + 1 := by
  simp only [rneDiv]
  rw [if_neg (by omega), if_neg (by omega), if_neg (by omega)]

theorem rneDiv_mono {P Q P' Q' : Nat} (hQ : 0 < Q) (hQ' : 0 < Q')
    (h : (P : ℚ) / Q ≤ (P' : ℚ) / Q') : rneDiv P Q ≤ rneDiv P' Q' := by
  have hfl : P / Q ≤ P' / Q' := by
    have hm := Nat.floor_mono h
    rwa [natFloor_cast_div, natFloor_cast_div] at hm
  rcases lt_or_eq_of_le hfl with hlt | heq
  · have h1 := rneDiv_le P Q
    have h2 := rneDiv_ge P' Q'
    omega
  · have hfr : ((P % Q : ℕ) : ℚ) / Q ≤ ((P' % Q' : ℕ) : ℚ) / Q' := by
      have d1 := cast_div_decomp P Q hQ
      have d2 := cast_div_decomp P' Q' hQ'
      rw [d1, d2, heq] at h
      linarith [h]
    rcases lt_trichotomy (2 * (P % Q)) Q with hA | hA | hA
    · rw [rneDiv_low_of hA, heq]
      exact rneDiv_ge P' Q'
    · by_cases hpar : P / Q % 2 = 0
      · rw [rneDiv_low_tie_even hA hpar, heq]
        exact rneDiv_ge P' Q'
      · rw [rneDiv_high_tie_odd hA (by omega)]
        have hhalf : ((P % Q : ℕ) : ℚ) / Q = 1 / 2 := (cast_div_eq_half hQ).mpr hA
        have hfr2 : (1 : ℚ) / 2 ≤ ((P' % Q' : ℕ) : ℚ) / Q' := by linarith
        rcases lt_or_eq_of_le hfr2 with hgt | heqf
        · rw [rneDiv_high_of ((cast_half_lt hQ').mp hgt)]
          omega
        · have htie : 2 * (P' % Q') = Q' := (cast_div_eq_half hQ').mp heqf.symm
          rw [rneDiv_high_tie_odd htie (by omega)]
          omega
    · rw [rneDiv_high_of hA]
      have hgt2 : (1 : ℚ) / 2 < ((P' % Q' : ℕ) : ℚ) / Q' := by
        have := (cast_half_lt hQ).mpr hA
        linarith
      rw [rneDiv_high_of ((cast_half_lt hQ').mp hgt2)]
      omega

theorem ratExp_spec (p q : Nat) (hp : 0 < p) (hq : 0 < q) :
    (2 : ℚ) ^ ratExp p q ≤ (p : ℚ) / q ∧ (p : ℚ) / q < (2 : ℚ) ^ (ratExp p q + 1) := by
  obtain ⟨hp1, hp2⟩ := natLog2_spec p hp
  obtain ⟨hq1, hq2⟩ := natLog2_spec q hq
  have hq0 : (0 : ℚ) < q := by exact_mod_cast hq
  have cp1 : ((2 ^ natLog2 p : ℕ) : ℚ) ≤ p := by exact_mod_cast hp1
  have cp2 : (p : ℚ) < ((2 ^ (natLog2 p + 1) : ℕ) : ℚ) := by exact_mod_cast hp2
  have cq1 : ((2 ^ natLog2 q : ℕ) : ℚ) ≤ q := by exact_mod_cast hq1
  have cq2 : (q : ℚ) < ((2 ^ (natLog2 q + 1) : ℕ) : ℚ) := by exact_mod_cast hq2
  simp only [ratExp]
  split_ifs with hcond
  · have hc : ((q * 2 ^ natLog2 p : ℕ) : ℚ) ≤ ((p * 2 ^ natLog2 q : ℕ) : ℚ) := by
      exact_mod_cast hcond
    constructor
    · rw [zpow_sub₀ (two_ne_zero), zpow_natCast, zpow_natCast,
        div_le_div_iff₀ (by positivity) hq0]
      push_cast at hc ⊢
      linarith
    · rw [show (natLog2 p : ℤ) - natLog2 q + 1 = ((natLog2 p + 1 : ℕ) : ℤ) - (natLog2 q : ℤ) by
        push_cast; ring, zpow_sub₀ (two_ne_zero), zpow_natCast, zpow_natCast,
        div_lt_div_iff₀ hq0 (by positivity)]
      push_cast at cp2 cq1 ⊢
      nlinarith [pow_pos (by norm_num : (0 : ℚ) < 2) (natLog2 q),
        pow_pos (by norm_num : (0 : ℚ) < 2) (natLog2 p + 1)]
  · have hc : ((p * 2 ^ natLog2 q : ℕ) : ℚ) < ((q * 2 ^ natLog2 p : ℕ) : ℚ) := by
      exact_mod_cast Nat.lt_of_not_le hcond
    constructor
    · rw [show (natLog2 p : ℤ) - natLog2 q - 1 = ((natLog2 p : ℕ) : ℤ) - ((natLog2 q + 1 : ℕ) : ℤ) by
        push_cast; ring, zpow_sub₀ (two_ne_zero), zpow_natCast, zpow_natCast,
        div_le_div_iff₀ (by positivity) hq0]
      push_cast at cp1 cq2 ⊢
      nlinarith [pow_pos (by norm_num : (0 : ℚ) < 2) (natLog2 q),
        pow_pos (by norm_num : (0 : ℚ) < 2) (natLog2 p)]
    · rw [show (natLog2 p : ℤ) - natLog2 q - 1 + 1 = ((natLog2 p : ℕ) : ℤ) - (natLog2 q : ℤ) by
        ring, zpow_sub₀ (two_ne_zero), zpow_natCast, zpow_natCast,
        div_lt_div_iff₀ hq0 (by positivity)]
      push_cast at hc ⊢
      linarith

theorem ratExp_mono {p q p' q' : Nat} (hp : 0 < p) (hq : 0 < q) (hp' : 0 < p')
    (hq' : 0 < q') (h : (p : ℚ) / q ≤ (p' : ℚ) / q') : ratExp p q ≤ ratExp p' q' := by
  have h1 := (ratExp_spec p q hp hq).1
  have h2 := (ratExp_spec p' q' hp' hq').2
  have h3 : (2 : ℚ) ^ ratExp p q < (2 : ℚ) ^ (ratExp p' q' + 1) :=
    lt_of_le_of_lt (h1.trans h) h2
  have h4 := (zpow_lt_zpow_iff_right₀ (by norm_num : (1 : ℚ) < 2)).mp h3
  omega

theorem dyadicVal_nonneg (f : Nat × ℤ) : 0 ≤ dyadicVal f := by
  unfold dyadicVal
  positivity

theorem roundRatToDouble_zero (q : Nat) (hq : 0 < q) :
    roundRatToDouble 0 q = (0, max (-1074) (ratExp 0 q - 52)) := by
  simp only [roundRatToDouble, Nat.zero_mul, rneDiv, Nat.zero_div, Nat.zero_mod]
  rw [if_pos (by positivity)]

theorem roundRatToDouble_mono {p q p' q' : Nat} (hq : 0 < q) (hq' : 0 < q')
    (h : (p : ℚ) / q ≤ (p' : ℚ) / q') :
    dyadicVal (roundRatToDouble p q) ≤ dyadicVal (roundRatToDouble p' q') := by
  rcases Nat.eq_zero_or_pos p with rfl | hp
  · rw [roundRatToDouble_zero q hq]
    have hz : dyadicVal ((0 : ℕ), max (-1074) (ratExp 0 q - 52)) = 0 := by
      unfold dyadicVal
      simp
    rw [hz]
    exact dyadicVal_nonneg _
  · have hp' : 0 < p' := by
      by_contra h0
      have hzero : p' = 0 := by omega
      subst hzero
      have hpos : (0 : ℚ) < (p : ℚ) / q := by positivity
      simp only [Nat.cast_zero, zero_div] at h
      linarith
    have hE : ratExp p q ≤ ratExp p' q' := ratExp_mono hp hq hp' hq' h
    simp only [roundRatToDouble]
    set E := ratExp p q with hEdef
    set E' := ratExp p' q' with hE'def
    set u : ℤ := max (-1074) (E - 52) with hu
    set u' : ℤ := max (-1074) (E' - 52) with hu'
    have huu : u ≤ u' := max_le_max le_rfl (by omega)
    have hQ : 0 < q * 2 ^ u.toNat := Nat.mul_pos hq (Nat.two_pow_pos _)
    have hQ' : 0 < q' * 2 ^ u'.toNat := Nat.mul_pos hq' (Nat.two_pow_pos _)
    rcases eq_or_lt_of_le huu with hEq | hlt
    · rw [← hEq]
      unfold dyadicVal
      have hstep : rneDiv (p * 2 ^ (-u).toNat) (q * 2 ^ u.toNat) ≤
          rneDiv (p' * 2 ^ (-u).toNat) (q' * 2 ^ u.toNat) := by
        apply rneDiv_mono hQ (hEq ▸ hQ')
        rw [scaled_frac, scaled_frac]
        exact mul_le_mul_of_nonneg_right h (le_of_lt (zpow_pos (by norm_num) _))
      exact mul_le_mul_of_nonneg_right (by exact_mod_cast hstep)
        (le_of_lt (zpow_pos (by norm_num) _))
    · have hu'norm : u' = E' - 52 := by
        rcases max_cases (-1074 : ℤ) (E' - 52) with ⟨h1, h2⟩ | ⟨h1, h2⟩
        · have hge : (-1074 : ℤ) ≤ u := le_max_left _ _
          omega
        · exact h1
      have hE1 : E + 1 ≤ E' := by
        rcases max_cases (-1074 : ℤ) (E - 52) with ⟨h1, h2⟩ | ⟨h1, h2⟩ <;> omega
      have hup := (ratExp_spec p q hp hq).2
      have hlow := (ratExp_spec p' q' hp' hq').1
      rw [← hEdef] at hup
      rw [← hE'def] at hlow
      have h2E : (2 : ℚ) ^ (E + 1) ≤ (2 : ℚ) ^ E' :=
        zpow_le_zpow_right₀ (by norm_num) hE1
      set d : ℕ := (E' - u).toNat with hd
      have hd53 : (53 : ℤ) ≤ E' - u := by omega
      have hdcast : ((d : ℕ) : ℤ) = E' - u := by omega
      have hcast : (2 : ℚ) ^ (E' - u) = ((2 ^ d : ℕ) : ℚ) := by
        push_cast
        rw [← zpow_natCast (2 : ℚ) d, hdcast]
      have hmlt : ((p * 2 ^ (-u).toNat : ℕ) : ℚ) / ((q * 2 ^ u.toNat : ℕ) : ℚ) <
          ((2 ^ d : ℕ) : ℚ) := by
        rw [scaled_frac, ← hcast]
        calc ((p : ℚ) / q) * (2 : ℚ) ^ (-u) < (2 : ℚ) ^ (E + 1) * (2 : ℚ) ^ (-u) :=
              mul_lt_mul_of_pos_right hup (zpow_pos (by norm_num) _)
          _ ≤ (2 : ℚ) ^ E' * (2 : ℚ) ^ (-u) :=
              mul_le_mul_of_nonneg_right h2E (le_of_lt (zpow_pos (by norm_num) _))
          _ = (2 : ℚ) ^ (E' - u) := by
              rw [← zpow_add₀ (two_ne_zero : (2 : ℚ) ≠ 0)]
              ring_nf
      have hn1 : rneDiv (p * 2 ^ (-u).toNat) (q * 2 ^ u.toNat) ≤ 2 ^ d := by
        have hfl : (p * 2 ^ (-u).toNat) / (q * 2 ^ u.toNat) < 2 ^ d := by
          have hflo := (Nat.floor_lt (by positivity)).mpr hmlt
          rwa [natFloor_cast_div] at hflo
        have := rneDiv_le (p * 2 ^ (-u).toNat) (q * 2 ^ u.toNat)
        omega
      have hLHS : ((rneDiv (p * 2 ^ (-u).toNat) (q * 2 ^ u.toNat) : ℕ) : ℚ) * (2 : ℚ) ^ u ≤
          (2 : ℚ) ^ E' := by
        calc ((rneDiv (p * 2 ^ (-u).toNat) (q * 2 ^ u.toNat) : ℕ) : ℚ) * (2 : ℚ) ^ u
            ≤ ((2 ^ d : ℕ) : ℚ) * (2 : ℚ) ^ u :=
              mul_le_mul_of_nonneg_right (by exact_mod_cast hn1)
                (le_of_lt (zpow_pos (by norm_num) _))
          _ = (2 : ℚ) ^ (E' - u) * (2 : ℚ) ^ u := by rw [hcast]
          _ = (2 : ℚ) ^ E' := by
              rw [← zpow_add₀ (two_ne_zero : (2 : ℚ) ≠ 0)]
              ring_nf
      have hm'ge : ((2 ^ 52 : ℕ) : ℚ) ≤
          ((p' * 2 ^ (-u').toNat : ℕ) : ℚ) / ((q' * 2 ^ u'.toNat : ℕ) : ℚ) := by
        rw [scaled_frac]
        calc ((2 ^ 52 : ℕ) : ℚ) = (2 : ℚ) ^ (E' - u') := by
              rw [show E' - u' = ((52 : ℕ) : ℤ) by omega, zpow_natCast]
              push_cast
              ring
          _ = (2 : ℚ) ^ E' * (2 : ℚ) ^ (-u') := by
              rw [← zpow_add₀ (two_ne_zero : (2 : ℚ) ≠ 0)]
              ring_nf
          _ ≤ ((p' : ℚ) / q') * (2 : ℚ) ^ (-u') :=
              mul_le_mul_of_nonneg_right hlow (le_of_lt (zpow_pos (by norm_num) _))
      have hn2 : 2 ^ 52 ≤ rneDiv (p' * 2 ^ (-u').toNat) (q' * 2 ^ u'.toNat) := by
        have hfl : 2 ^ 52 ≤ (p' * 2 ^ (-u').toNat) / (q' * 2 ^ u'.toNat) := by
          have hflo := Nat.le_floor hm'ge
          rwa [natFloor_cast_div] at hflo
        have := rneDiv_ge (p' * 2 ^ (-u').toNat) (q' * 2 ^ u'.toNat)
        omega
      have hRHS : (2 : ℚ) ^ E' ≤
          ((rneDiv (p' * 2 ^ (-u').toNat) (q' * 2 ^ u'.toNat) : ℕ) : ℚ) * (2 : ℚ) ^ u' := by
        calc (2 : ℚ) ^ E' = ((2 ^ 52 : ℕ) : ℚ) * (2 : ℚ) ^ u' := by
              rw [show E' = ((52 : ℕ) : ℤ) + u' by omega,
                zpow_add₀ (two_ne_zero : (2 : ℚ) ≠ 0), zpow_natCast]
              push_cast
              ring
          _ ≤ ((rneDiv (p' * 2 ^ (-u').toNat) (q' * 2 ^ u'.toNat) : ℕ) : ℚ) * (2 : ℚ) ^ u' :=
              mul_le_mul_of_nonneg_right (by exact_mod_cast hn2)
                (le_of_lt (zpow_pos (by norm_num) _))
      unfold dyadicVal
      exact le_trans hLHS hRHS

theorem timesHundred_pos (f : Nat × ℤ) : 0 < (timesHundred f).2 := by
  unfold timesHundred
  split_ifs <;> simp [Nat.pos_pow_of_pos]

theorem timesHundred_val (f : Nat × ℤ) :
    (((timesHundred f).1 : ℕ) : ℚ) / (((timesHundred f).2 : ℕ) : ℚ) = 100 * dyadicVal f := by
  unfold timesHundred dyadicVal
  split_ifs with h
  · push_cast
    rw [div_one, show (2 : ℚ) ^ f.2 = (2 : ℚ) ^ f.2.toNat by
      rw [← zpow_natCast (2 : ℚ) f.2.toNat]; congr 1; omega]
    ring
  · push_cast
    rw [show (2 : ℚ) ^ f.2 = 1 / (2 : ℚ) ^ (-f.2).toNat by
      rw [← zpow_natCast (2 : ℚ) (-f.2).toNat,
        show (((-f.2).toNat : ℕ) : ℤ) = -f.2 by omega, zpow_neg, one_div, inv_inv]]
    field_simp

theorem dyadicFloor_eq (n : Nat) (u : ℤ) : dyadicFloor n u = ⌊dyadicVal (n, u)⌋₊ := by
  unfold dyadicFloor dyadicVal
  split_ifs with h
  · rw [show (n : ℚ) * (2 : ℚ) ^ u = ((n * 2 ^ u.toNat : ℕ) : ℚ) by
      push_cast
      rw [← zpow_natCast (2 : ℚ) u.toNat, show ((u.toNat : ℕ) : ℤ) = u by omega]]
    rw [Nat.floor_natCast]
  · rw [show (n : ℚ) * (2 : ℚ) ^ u = (n : ℚ) / ((2 ^ (-u).toNat : ℕ) : ℚ) by
      push_cast
      rw [← zpow_natCast (2 : ℚ) (-u).toNat, show (((-u).toNat : ℕ) : ℤ) = -u by omega,
        zpow_neg, div_eq_mul_inv, inv_inv]]
    rw [Nat.floor_div_nat, Nat.floor_natCast]

theorem dyadicFloor_mono {n n' : Nat} {u u' : ℤ}
    (h : dyadicVal (n, u) ≤ dyadicVal (n', u')) : dyadicFloor n u ≤ dyadicFloor n' u' := by
  rw [dyadicFloor_eq, dyadicFloor_eq]
  exact Nat.floor_mono h

theorem progressAt_mono (total : Nat) {a b : Nat} (h : a ≤ b) :
    progressAt a total ≤ progressAt b total := by
  rcases Nat.eq_zero_or_pos total with rfl | ht
  · simp [progressAt]
  · simp only [progressAt, if_neg ht.ne']
    apply dyadicFloor_mono
    apply roundRatToDouble_mono (timesHundred_pos _) (timesHundred_pos _)
    rw [timesHundred_val, timesHundred_val]
    have h1 : dyadicVal (roundRatToDouble a total) ≤ dyadicVal (roundRatToDouble b total) := by
      apply roundRatToDouble_mono ht ht
      have ht0 : (0 : ℚ) < (total : ℚ) := by exact_mod_cast ht
      exact (div_le_div_iff_of_pos_right ht0).mpr (by exact_mod_cast h)
    linarith

theorem progressAt_self {t : Nat} (ht : 0 < t) : progressAt t t = 100 := by
  have hE : ratExp t t = 0 := by
    simp [ratExp]
  simp only [progressAt, if_neg ht.ne']
  have hu : max (-1074 : ℤ) (ratExp t t - 52) = -52 := by
    rw [hE]
    decide
  have hf1 : roundRatToDouble t t = (2 ^ 52, -52) := by
    simp only [roundRatToDouble, hu]
    have h52 : ((-(-52 : ℤ)).toNat) = 52 := by decide
    have h0 : ((-52 : ℤ).toNat) = 0 := by decide
    rw [h52, h0, pow_zero, mul_one]
    have hdiv : t * 2 ^ 52 / t = 2 ^ 52 := by
      rw [mul_comm, Nat.mul_div_cancel _ ht]
    have hmod : t * 2 ^ 52 % t = 0 := Nat.mul_mod_right t _
    simp only [rneDiv, hdiv, hmod]
    rw [if_pos (by omega)]
  rw [hf1]
  decide

/-- Claim C1 (code_bug evidence): when `send_command` returns an output whose
marker is `200 code=` (not `100 code=`), `CommandExecutorThread.run` still
emits the per-command event with success flag `true`, while annotating the
very same output with `| Command execution failed.` — the emitted flag
contradicts both the claim and the code's own annotation.  The flag is `true`
for every non-raising send and `false` only for a raised exception. -/
theorem command_success_flag_ignores_marker :
    CommandExecutorThread.run (fun _ _ => SendResult.ok ("200 code=ERROR_BAD_COMMAND"))
        [("config foo")] =
      [DispatchEvent.cmdResult
        { command := ("config foo"),
          output := ("200 code=ERROR_BAD_COMMAND | Command execution failed."),
          success := true },
       DispatchEvent.progress 100] := by
  decide

/-- Claim C2 (counterexample): the pre-dispatch filter of `execute_commands`
keeps `bogus_cmd` (it is non-blank and not a comment), so the dispatcher
receives and executes two commands, not exactly one as claimed. -/
theorem execute_commands_filter_keeps_bogus_cmd :
    execute_commands_filter batchScenarioText =
        [("config network interface show"), ("bogus_cmd")]
    ∧ execute_commands_filter batchScenarioText ≠ [("config network interface show")]
    ∧ (cmdEventsOf (CommandExecutorThread.run (fun _ _ => SendResult.ok ("100 code=00"))
        (execute_commands_filter batchScenarioText))).length = 2 := by
  refine ⟨by decide, by decide, by decide⟩

/-- Claim C2 (amended): filtering the four-line batch yields exactly the two
commands `config network interface show` and `bogus_cmd`, in that order; the
comment line and the blank line never reach the dispatcher; and for every
send oracle the dispatcher executes exactly those two commands in input
order (`bogus_cmd` is dispatched — validity is not checked before dispatch). -/
theorem execute_commands_filter_scenario :
    execute_commands_filter batchScenarioText =
        [("config network interface show"), ("bogus_cmd")]
    ∧ (execute_commands_filter batchScenarioText).count ("#comment") = 0
    ∧ (execute_commands_filter batchScenarioText).count ("") = 0
    ∧ ∀ send : Nat → String → SendResult,
        (cmdEventsOf (CommandExecutorThread.run send
          (execute_commands_filter batchScenarioText))).map CmdEvent.command =
          [("config network interface show"), ("bogus_cmd")] := by
  refine ⟨by decide, by decide, by decide, fun send => ?_⟩
  have hval : execute_commands_filter batchScenarioText =
      [("config network interface show"), ("bogus_cmd")] := by decide
  rw [hval]
  have hnb : ∀ c ∈ [("config network interface show"), ("bogus_cmd")],
      pyStrip c ≠ ("") := by decide
  rw [run_eq_dispatchTrace send _ hnb]
  exact cmdEventsOf_dispatchTrace_map_command send _ _ 0

/-- Claim C3: for a non-empty list of non-blank commands, the dispatcher's
signal stream is the canonical interleaving (result of command i, then its
progress value, then command i+1 — so each per-command event precedes
everything of the next command), the per-command events are exactly the input
commands in input order, the progress values are monotonically non-decreasing,
and the final progress value is 100. -/
theorem dispatcher_events_order_and_progress (send : Nat → String → SendResult)
    (cmds : List String) (hne : cmds ≠ [])
    (hnb : ∀ c ∈ cmds, pyStrip c ≠ ("")) :
    CommandExecutorThread.run send cmds = dispatchTrace send cmds.length 0 cmds
    ∧ (cmdEventsOf (CommandExecutorThread.run send cmds)).map CmdEvent.command = cmds
    ∧ progressValues (CommandExecutorThread.run send cmds) =
        ((List.range cmds.length).map fun j => progressAt (j + 1) cmds.length)
    ∧ List.Chain' (· ≤ ·) (progressValues (CommandExecutorThread.run send cmds))
    ∧ (progressValues (CommandExecutorThread.run send cmds)).getLast? = some 100 := by
  have htr := run_eq_dispatchTrace send cmds hnb
  have hprog : progressValues (CommandExecutorThread.run send cmds) =
      (List.range cmds.length).map fun j => progressAt (j + 1) cmds.length := by
    rw [htr, progressValues_dispatchTrace_eq]
    refine List.map_congr_left fun j _ => ?_
    have : 0 + 1 + j = j + 1 := by omega
    rw [this]
  refine ⟨htr, ?_, hprog, ?_, ?_⟩
  · rw [htr]; exact cmdEventsOf_dispatchTrace_map_command send _ _ 0
  · rw [hprog]
    rw [List.chain'_map]
    obtain ⟨m, hm⟩ : ∃ m, cmds.length = m + 1 := by
      cases hl : cmds.length with
      | zero => exact absurd (List.length_eq_zero.mp hl) hne
      | succ m => exact ⟨m, rfl⟩
    rw [hm]
    exact (List.chain'_range_succ _ m).mpr fun j _ =>
      progressAt_mono (m + 1) (by omega)
  · rw [hprog]
    obtain ⟨m, hm⟩ : ∃ m, cmds.length = m + 1 := by
      cases hl : cmds.length with
      | zero => exact absurd (List.length_eq_zero.mp hl) hne
      | succ m => exact ⟨m, rfl⟩
    rw [hm, List.range_succ]
    simp only [List.map_append, List.map_cons, List.map_nil, List.getLast?_concat]
    rw [progressAt_self (Nat.succ_pos m)]

/-- Witness for C3 at the concrete batch `["a", "b", "c"]`. -/
theorem dispatcher_events_order_and_progress_witness :
    CommandExecutorThread.run (fun _ _ => SendResult.ok ("100 code=00")) [("a"), ("b"), ("c")] =
        dispatchTrace (fun _ _ => SendResult.ok ("100 code=00")) 3 0 [("a"), ("b"), ("c")]
    ∧ (cmdEventsOf (CommandExecutorThread.run (fun _ _ => SendResult.ok ("100 code=00"))
        [("a"), ("b"), ("c")])).map CmdEvent.command = [("a"), ("b"), ("c")]
    ∧ progressValues (CommandExecutorThread.run (fun _ _ => SendResult.ok ("100 code=00"))
        [("a"), ("b"), ("c")]) = ((List.range 3).map fun j => progressAt (j + 1) 3)
    ∧ List.Chain' (· ≤ ·) (progressValues (CommandExecutorThread.run
        (fun _ _ => SendResult.ok ("100 code=00")) [("a"), ("b"), ("c")]))
    ∧ (progressValues (CommandExecutorThread.run (fun _ _ => SendResult.ok ("100 code=00"))
        [("a"), ("b"), ("c")])).getLast? = some 100 :=
  dispatcher_events_order_and_progress (fun _ _ => SendResult.ok ("100 code=00"))
    [("a"), ("b"), ("c")] (by decide) (by decide)

/-- Claim C4 (counterexample): after the second of three commands the code
emits the truncated value 66 (`int((2 / 3) * 100)`), while rounding
`100 * 2 / 3` to the nearest integer gives 67. -/
theorem progress_truncates_not_rounds :
    progressValues (CommandExecutorThread.run (fun _ _ => SendResult.ok ("100 code=00"))
        [("a"), ("b"), ("c")]) = [33, 66, 100]
    ∧ round ((100 * 2 : ℚ) / 3) = 67
    ∧ (66 : ℤ) ≠ 67 := by
  refine ⟨by decide, ?_, by decide⟩
  rw [round_eq]
  norm_num

/-- Claim C4 (amended): after completing command `completed` of `total`, the
dispatcher emits the truncation toward zero of the binary64 float product
`(completed / total) * 100` — Python `int()` of the correctly-rounded double
computation — not the nearest-integer rounding of `100 * completed / total`.
`progressAt` is that float pipeline; the concrete conjuncts pin its behaviour:
at 2 of 3 it yields 66 where rounding gives 67, and at 29 of 100 it yields 28
(the double `0.29 * 100` is just below 29) where the exact value — and hence
both rounding and exact floor — give 29. -/
theorem dispatcher_progress_truncation (send : Nat → String → SendResult)
    (cmds : List String) (hnb : ∀ c ∈ cmds, pyStrip c ≠ ("")) :
    progressValues (CommandExecutorThread.run send cmds) =
      ((List.range cmds.length).map fun j => progressAt (j + 1) cmds.length)
    ∧ progressAt 2 3 = 66
    ∧ progressAt 29 100 = 28
    ∧ (100 * 29) / 100 = 29 := by
  refine ⟨?_, by decide, by decide, by decide⟩
  rw [run_eq_dispatchTrace send cmds hnb, progressValues_dispatchTrace_eq]
  refine List.map_congr_left fun j _ => ?_
  have harith : 0 + 1 + j = j + 1 := by omega
  rw [harith]

/-- Witness for C4 (amended) at the concrete batch `["a", "b", "c"]`. -/
theorem dispatcher_progress_truncation_witness :
    progressValues (CommandExecutorThread.run (fun _ _ => SendResult.ok ("100 code=00"))
        [("a"), ("b"), ("c")]) =
      ((List.range 3).map fun j => progressAt (j + 1) 3)
    ∧ progressAt 2 3 = 66
    ∧ progressAt 29 100 = 28
    ∧ (100 * 29) / 100 = 29 :=
  dispatcher_progress_truncation (fun _ _ => SendResult.ok ("100 code=00"))
    [("a"), ("b"), ("c")] (by decide)

/-- Claim C7: for a batch of non-blank commands, a raised exception at
command `i` is caught and reported as the per-command event
`(command, "Error: " ++ msg, false)`, and the dispatcher still produces an
event for every command of the batch, each being exactly the processing of
its own command — one failing command never aborts the rest. -/
theorem dispatcher_exception_isolated (send : Nat → String → SendResult)
    (cmds : List String) (hnb : ∀ c ∈ cmds, pyStrip c ≠ ("")) :
    (cmdEventsOf (CommandExecutorThread.run send cmds)).length = cmds.length
    ∧ (∀ j, (cmdEventsOf (CommandExecutorThread.run send cmds))[j]? =
        (cmds[j]?).map fun c => processCommand (send j) c)
    ∧ ∀ i (h : i < cmds.length) (msg : String),
        send i (cmds[i]) = SendResult.exn msg →
        (cmdEventsOf (CommandExecutorThread.run send cmds))[i]? =
          some { command := cmds[i], output := ("Error: ") ++ msg, success := false } := by
  have htr := run_eq_dispatchTrace send cmds hnb
  have hlen : (cmdEventsOf (CommandExecutorThread.run send cmds)).length = cmds.length := by
    have := cmdEventsOf_dispatchTrace_map_command send cmds.length cmds 0
    rw [htr]
    calc (cmdEventsOf (dispatchTrace send cmds.length 0 cmds)).length
        = ((cmdEventsOf (dispatchTrace send cmds.length 0 cmds)).map CmdEvent.command).length := by
          rw [List.length_map]
      _ = cmds.length := by rw [this]
  have hget : ∀ j, (cmdEventsOf (CommandExecutorThread.run send cmds))[j]? =
      (cmds[j]?).map fun c => processCommand (send j) c := by
    intro j
    rw [htr]
    have := cmdEventsOf_dispatchTrace_getElem? send cmds.length cmds 0 j
    simpa using this
  refine ⟨hlen, hget, fun i h msg hexn => ?_⟩
  rw [hget i]
  have hi : cmds[i]? = some (cmds[i]) := List.getElem?_eq_getElem h
  rw [hi]
  simp [processCommand, hexn]

/-- Witness for C7: a two-command batch whose second send raises. -/
theorem dispatcher_exception_isolated_witness :
    (cmdEventsOf (CommandExecutorThread.run
        (fun i _ => if i = 1 then SendResult.exn ("boom") else SendResult.ok ("100 code=00"))
        [("good"), ("bad")])).length = 2
    ∧ (cmdEventsOf (CommandExecutorThread.run
        (fun i _ => if i = 1 then SendResult.exn ("boom") else SendResult.ok ("100 code=00"))
        [("good"), ("bad")]))[1]? =
        some { command := ("bad"), output := ("Error: boom"), success := false } := by
  have h := dispatcher_exception_isolated
    (fun i _ => if i = 1 then SendResult.exn ("boom") else SendResult.ok ("100 code=00"))
    [("good"), ("bad")] (by decide)
  exact ⟨h.1, h.2.2 1 (by decide) ("boom") (by decide)⟩

/-- Claim C5 (counterexample): in an iteration whose first ipsec send raises,
the monitor loop issues only one send (the `try` block aborts before
`monitor getsa`) and publishes an error string, so kind `ipsec` does not
issue exactly two sends in every iteration. -/
theorem ipsec_single_send_on_first_error :
    monitorIteration (fun _ _ => SendResult.exn ("boom")) ("ipsec") =
        ([("monitor getikesa")], ("Error: boom"))
    ∧ (monitorIteration (fun _ _ => SendResult.exn ("boom")) ("ipsec")).1.length ≠ 2 := by
  refine ⟨by decide, by decide⟩

/-- Claim C5 (amended): in every iteration in which the first ipsec send
returns, kind `ipsec` issues exactly the two sends `monitor getikesa` then
`monitor getsa`, and when both return it publishes their outputs concatenated
with a single newline; kinds `system` and `interface` issue exactly one send
per iteration unconditionally; an iteration whose send raises publishes an
error string instead and issues no further send. -/
theorem monitor_sends_per_kind (send : Nat → String → SendResult) (s1 s2 : String)
    (h1 : send 0 ("monitor getikesa") = SendResult.ok s1)
    (h2 : send 1 ("monitor getsa") = SendResult.ok s2) :
    monitorIteration send ("ipsec") =
        ([("monitor getikesa"), ("monitor getsa")], s1 ++ ("\n") ++ s2)
    ∧ (∀ send' : Nat → String → SendResult,
        (monitorIteration send' ("system")).1 = [("monitor system")]
        ∧ (monitorIteration send' ("interface")).1 = [("monitor interface")]) := by
  constructor
  · unfold monitorIteration
    rw [if_neg (by decide), if_pos rfl, h1, h2]
  · intro send'
    constructor
    · unfold monitorIteration
      rw [if_pos rfl]
      cases send' 0 ("monitor system") <;> rfl
    · unfold monitorIteration
      rw [if_neg (by decide), if_neg (by decide), if_pos rfl]
      cases send' 0 ("monitor interface") <;> rfl

/-- Witness for C5 (amended) with a concrete oracle answering both sends. -/
theorem monitor_sends_per_kind_witness :
    monitorIteration (fun i _ => if i = 0 then SendResult.ok ("IKE") else SendResult.ok ("SA"))
        ("ipsec") = ([("monitor getikesa"), ("monitor getsa")], ("IKE\nSA"))
    ∧ (∀ send' : Nat → String → SendResult,
        (monitorIteration send' ("system")).1 = [("monitor system")]
        ∧ (monitorIteration send' ("interface")).1 = [("monitor interface")]) :=
  monitor_sends_per_kind
    (fun i _ => if i = 0 then SendResult.ok ("IKE") else SendResult.ok ("SA"))
    ("IKE") ("SA") (by decide) (by decide)

/-- Claim C6: in the trace model of a stopped Monitor Poller — the cleared
`is_running` flag bounds the loop to `k` iterations, and `stop_monitoring`
returns only after `wait()` observes the thread's exit — the stop return is
the final event of the trace, the thread's own events contain no stop return,
and the trace carries exactly `k` snapshot publications, all of which
therefore precede the return of the stop call; no send or snapshot follows it. -/
theorem monitor_stop_no_publish_after_return
    (sched : Nat → Nat → String → SendResult) (t : String) (k : Nat) :
    monitorStopTrace sched t k = monitorRunEvents sched t k ++ [MonitorEvent.stopReturn]
    ∧ (monitorRunEvents sched t k).countP isStopReturn = 0
    ∧ (monitorStopTrace sched t k).countP isPublish = k
    ∧ (monitorStopTrace sched t k).getLast? = some MonitorEvent.stopReturn := by
  refine ⟨rfl, ?_, ?_, ?_⟩
  · rw [List.countP_eq_zero]
    intro e he
    simp only [monitorRunEvents, List.mem_flatMap] at he
    obtain ⟨i, _, hei⟩ := he
    simp only [monitorIterEvents, List.mem_append, List.mem_map] at hei
    rcases hei with ⟨c, _, rfl⟩ | hei
    · simp [isStopReturn]
    · rw [List.mem_singleton] at hei
      subst hei
      simp [isStopReturn]
  · unfold monitorStopTrace
    rw [List.countP_append]
    have hrun : ∀ n, (monitorRunEvents sched t n).countP isPublish = n := by
      intro n
      induction n with
      | zero => rfl
      | succ m ih =>
          unfold monitorRunEvents
          rw [List.range_succ, List.flatMap_append]
          rw [List.countP_append]
          unfold monitorRunEvents at ih
          rw [ih]
          simp only [List.flatMap_cons, List.flatMap_nil, List.append_nil,
            monitorIterEvents, List.countP_append]
          have hmap : (((monitorIteration (sched m) t).1.map MonitorEvent.send).countP
              isPublish) = 0 := by
            rw [List.countP_eq_zero]
            intro e he
            obtain ⟨c, _, rfl⟩ := List.mem_map.mp he
            simp [isPublish]
          rw [hmap]
          rfl
    rw [hrun k]
    rfl
  · unfold monitorStopTrace
    exact List.getLast?_concat _

/-! Helper lemmas about the settings store. -/

theorem mem_setValue {kv : String × SettingValue} {st : Store} {k : String}
    {v : SettingValue} (h : kv ∈ setValue st k v) : kv = (k, v) ∨ kv ∈ st := by
  unfold setValue at h
  rcases List.mem_cons.mp h with h | h
  · exact Or.inl h
  · exact Or.inr (List.mem_filter.mp h).1

theorem getValue_setValue_self (st : Store) (k : String) (v : SettingValue) :
    getValue (setValue st k v) k = some v := by
  unfold getValue setValue
  rw [List.find?_cons_of_pos _ (by simp)]
  rfl

theorem find?_filter_key (l : Store) (q : String → Bool) (k : String) :
    ((l.filter fun p => q p.1).find? fun p => decide (p.1 = k)) =
      if q k then l.find? fun p => decide (p.1 = k) else none := by
  induction l with
  | nil => simp
  | cons hd tl ih =>
      obtain ⟨k', v'⟩ := hd
      by_cases hk : k' = k
      · subst hk
        by_cases hq : q k'
        · rw [List.filter_cons_of_pos (by simpa using hq),
            List.find?_cons_of_pos _ (by simp), if_pos hq,
            List.find?_cons_of_pos _ (by simp)]
        · rw [List.filter_cons_of_neg (by simpa using hq), ih, if_neg hq, if_neg hq]
      · by_cases hq : q k'
        · rw [List.filter_cons_of_pos (by simpa using hq),
            List.find?_cons_of_neg _ (by simp [hk]), ih]
          by_cases hqk : q k
          · rw [if_pos hqk, if_pos hqk, List.find?_cons_of_neg _ (by simp [hk])]
          · rw [if_neg hqk, if_neg hqk]
        · rw [List.filter_cons_of_neg (by simpa using hq), ih]
          by_cases hqk : q k
          · rw [if_pos hqk, if_pos hqk, List.find?_cons_of_neg _ (by simp [hk])]
          · rw [if_neg hqk, if_neg hqk]

theorem getValue_filterKeys (st : Store) (q : String → Bool) (k : String) :
    getValue (st.filter fun p => q p.1) k = if q k then getValue st k else none := by
  unfold getValue
  rw [find?_filter_key]
  by_cases hq : q k
  · rw [if_pos hq, if_pos hq]
  · rw [if_neg hq, if_neg hq]
    rfl

theorem getValue_removeKeyTree (st : Store) (name k : String) :
    getValue (removeKeyTree st name) k =
      if inSection name k then none else getValue st k := by
  have h := getValue_filterKeys st (fun key => !(inSection name key)) k
  by_cases hs : inSection name k = true
  · rw [if_pos hs]
    rw [hs] at h
    simpa [removeKeyTree] using h
  · rw [if_neg hs]
    rw [Bool.not_eq_true] at hs
    rw [hs] at h
    simpa [removeKeyTree] using h

theorem mem_saveConn {kv : String × SettingValue} (st : Store)
    (profile rawHost rawUser : String) (port : Nat) (date : String)
    (h : kv ∈ (save_connection_info st profile rawHost rawUser port date).1) :
    kv ∈ st ∨ KeyShape kv.1 := by
  simp only [save_connection_info] at h
  by_cases hg : pyStrip rawHost = ("") ∨ pyStrip rawUser = ("")
  · rw [if_pos hg] at h
    exact Or.inl h
  · rw [if_neg hg] at h
    split at h <;> split at h
    all_goals
      first
      | (rcases mem_setValue h with rfl | h
         · exact Or.inr (Or.inr (Or.inl rfl))
         · rcases mem_setValue h with rfl | h
           · exact Or.inr (Or.inr (Or.inr ⟨_, Or.inr (Or.inr (Or.inr rfl))⟩))
           · rcases mem_setValue h with rfl | h
             · exact Or.inr (Or.inr (Or.inr ⟨_, Or.inr (Or.inr (Or.inl rfl))⟩))
             · rcases mem_setValue h with rfl | h
               · exact Or.inr (Or.inr (Or.inr ⟨_, Or.inr (Or.inl rfl)⟩))
               · rcases mem_setValue h with rfl | h
                 · exact Or.inr (Or.inr (Or.inr ⟨_, Or.inl rfl⟩))
                 · exact Or.inl h)
      | (rcases mem_setValue h with rfl | h
         · exact Or.inr (Or.inr (Or.inr ⟨_, Or.inr (Or.inr (Or.inr rfl))⟩))
         · rcases mem_setValue h with rfl | h
           · exact Or.inr (Or.inr (Or.inr ⟨_, Or.inr (Or.inr (Or.inl rfl))⟩))
           · rcases mem_setValue h with rfl | h
             · exact Or.inr (Or.inr (Or.inr ⟨_, Or.inr (Or.inl rfl)⟩))
             · rcases mem_setValue h with rfl | h
               · exact Or.inr (Or.inr (Or.inr ⟨_, Or.inl rfl⟩))
               · exact Or.inl h)

theorem mem_deleteProfile {kv : String × SettingValue} (st : Store) (name : String)
    (h : kv ∈ (delete_connection_profile st name).1) :
    kv ∈ st ∨ kv.1 = ("profiles/list") := by
  simp only [delete_connection_profile, removeKeyTree] at h
  have h' := (List.mem_filter.mp h).1
  split at h'
  · rcases mem_setValue h' with rfl | h'
    · exact Or.inr rfl
    · exact Or.inl h'
  · exact Or.inl h'

theorem reachable_keyShape {st : Store} (h : Reachable st) :
    ∀ kv ∈ st, KeyShape kv.1 := by
  induction h with
  | empty => intro kv hkv; cases hkv
  | saveSettings st' _ ih =>
      intro kv hkv
      rcases mem_setValue hkv with rfl | hkv
      · exact Or.inl rfl
      · exact ih kv hkv
  | saveConn st' profile rawHost rawUser port date _ ih =>
      intro kv hkv
      rcases mem_saveConn st' profile rawHost rawUser port date hkv with hkv | hks
      · exact ih kv hkv
      · exact hks
  | deleteProfile st' name _ ih =>
      intro kv hkv
      rcases mem_deleteProfile st' name hkv with hkv | hks
      · exact ih kv hkv
      · exact Or.inr (Or.inl hks)

theorem data_getLast?_append (a b : String) (c : Char)
    (hb : b.data.getLast? = some c) : (a ++ b).data.getLast? = some c := by
  rw [String.data_append, List.getLast?_append, hb]
  rfl

theorem keyShape_noPassword {k : String} (h : KeyShape k) : NoPasswordKey k := by
  intro name heq
  have hd : k.data.getLast? = some ('d') :=
    heq ▸ data_getLast?_append (("profiles/") ++ name) ("/password") ('d') (by decide)
  rcases h with rfl | rfl | ⟨n, hp⟩
  · exact absurd hd (by decide)
  · exact absurd hd (by decide)
  · rcases hp with rfl | rfl | rfl | rfl
    · exact absurd ((data_getLast?_append (("profiles/") ++ n) ("/host") ('t')
        (by decide)).symm.trans hd) (by decide)
    · exact absurd ((data_getLast?_append (("profiles/") ++ n) ("/port") ('t')
        (by decide)).symm.trans hd) (by decide)
    · exact absurd ((data_getLast?_append (("profiles/") ++ n) ("/user") ('r')
        (by decide)).symm.trans hd) (by decide)
    · exact absurd ((data_getLast?_append (("profiles/") ++ n) ("/saved_date") ('e')
        (by decide)).symm.trans hd) (by decide)

/-- Claim C8: in every store reachable through the program's store-writing
operations (`save_settings`, `save_connection_info`,
`delete_connection_profile`), each key is the window geometry, the profile
name list, or one of the four profile fields host/port/user/saved_date —
in particular no key is a password field, so no password value is ever
persisted. -/
theorem settings_store_never_holds_password {st : Store} (h : Reachable st) :
    ∀ kv ∈ st, KeyShape kv.1 ∧ NoPasswordKey kv.1 :=
  fun kv hkv =>
    ⟨reachable_keyShape h kv hkv, keyShape_noPassword (reachable_keyShape h kv hkv)⟩

/-- Witness for C8 at the store obtained by one `save_settings` call. -/
theorem settings_store_never_holds_password_witness :
    KeyShape ("window/geometry") ∧ NoPasswordKey ("window/geometry") :=
  settings_store_never_holds_password
    (Reachable.saveSettings [] Reachable.empty)
    ((("window/geometry"), SettingValue.bytes)) (by decide)

/-- Claim C9 (counterexample): in the store holding the single saved profile
`alpha`, the name `list` is not a saved profile, yet deleting it is not a
no-op: `settings.remove("profiles/list")` removes the profile name list key
itself, so the store changes (while still reporting success). -/
theorem delete_profile_list_name_mutates_store :
    (get_saved_profiles demoProfileStore).count ("list") = 0
    ∧ (delete_connection_profile demoProfileStore ("list")).1 ≠ demoProfileStore
    ∧ (delete_connection_profile demoProfileStore ("list")).2 = true := by
  refine ⟨by decide, by decide, by decide⟩

/-- Claim C9 (amended): deleting a profile whose name is in the (duplicate-free)
profile name list reports success, removes the name from the list, and leaves
no key of the profile's section in the store; deleting a name that is neither
in the name list nor the root of any stored section key (which excludes the
reserved name `list`, whose section is the name-list key itself) leaves the
store unchanged and reports success. -/
theorem delete_profile_amended (st : Store) (name : String) :
    ((get_saved_profiles st).Nodup → name ∈ get_saved_profiles st →
      (delete_connection_profile st name).2 = true
      ∧ (get_saved_profiles (delete_connection_profile st name).1).count name = 0
      ∧ ((delete_connection_profile st name).1.countP fun p => inSection name p.1) = 0)
    ∧ (name ∉ get_saved_profiles st →
        (st.countP fun p => inSection name p.1) = 0 →
        delete_connection_profile st name = (st, true)) := by
  constructor
  · intro hnd hmem
    refine ⟨rfl, ?_, ?_⟩
    · simp only [delete_connection_profile, if_pos hmem]
      unfold get_saved_profiles
      rw [getValue_removeKeyTree]
      by_cases hsec : inSection name ("profiles/list") = true
      · rw [if_pos hsec]
        rfl
      · rw [if_neg hsec, getValue_setValue_self]
        exact List.count_eq_zero.mpr (hnd.not_mem_erase)
    · simp only [delete_connection_profile, removeKeyTree, if_pos hmem]
      rw [List.countP_eq_zero]
      intro p hp
      have := (List.mem_filter.mp hp).2
      simp only [Bool.not_eq_eq_eq_not, Bool.not_true] at this
      simp [this]
  · intro hmem hsec
    simp only [delete_connection_profile, removeKeyTree, if_neg hmem]
    have hall : ∀ p ∈ st, (!(inSection name p.1)) = true := by
      intro p hp
      have := List.countP_eq_zero.mp hsec p hp
      simpa using this
    rw [List.filter_eq_self.mpr hall]

/-- Witness for C9 (amended): the existing profile `alpha` is fully removed;
deleting the absent name `ghost` is an exact no-op. -/
theorem delete_profile_amended_witness :
    ((delete_connection_profile demoProfileStore ("alpha")).2 = true
      ∧ (get_saved_profiles
          (delete_connection_profile demoProfileStore ("alpha")).1).count ("alpha") = 0
      ∧ ((delete_connection_profile demoProfileStore ("alpha")).1.countP
          fun p => inSection ("alpha") p.1) = 0)
    ∧ delete_connection_profile demoProfileStore ("ghost") = (demoProfileStore, true) :=
  ⟨(delete_profile_amended demoProfileStore ("alpha")).1 (by decide) (by decide),
   (delete_profile_amended demoProfileStore ("ghost")).2 (by decide) (by decide)⟩

/-- Claim C10: on a duplicate-free history of at most 20 entries,
`add_to_command_history` preserves freedom from duplicates and the length
bound, places a genuinely new command at the front, leaves the history
unchanged when the command is already present, and `clear_command_history`
yields the empty history, which trivially satisfies the invariant. -/
theorem command_history_invariant (hist : List String) (c : String)
    (hnd : hist.Nodup) (hlen : hist.length ≤ 20) :
    (add_to_command_history hist c).Nodup
    ∧ (add_to_command_history hist c).length ≤ 20
    ∧ (c ∉ hist → (add_to_command_history hist c).head? = some c)
    ∧ (c ∈ hist → add_to_command_history hist c = hist)
    ∧ (clear_command_history hist).Nodup
    ∧ (clear_command_history hist).length ≤ 20 := by
  by_cases hc : c ∈ hist
  · refine ⟨?_, ?_, ?_, ?_, ?_, ?_⟩ <;>
      simp [add_to_command_history, clear_command_history, hc, hnd, hlen]
  · have hcons : (c :: hist).Nodup := List.nodup_cons.mpr ⟨hc, hnd⟩
    by_cases hl : (c :: hist).length > 20
    · have heq : add_to_command_history hist c = (c :: hist).take 20 := by
        simp [add_to_command_history, hc, hl]
      refine ⟨?_, ?_, ?_, ?_, ?_, ?_⟩
      · rw [heq]
        exact hcons.sublist (List.take_sublist 20 (c :: hist))
      · rw [heq, List.length_take]
        exact min_le_left 20 _
      · intro _
        rw [heq]
        rfl
      · intro hmem
        exact absurd hmem hc
      · exact List.nodup_nil
      · simp [clear_command_history]
    · have heq : add_to_command_history hist c = c :: hist := by
        simp only [add_to_command_history, if_neg hc, if_neg hl]
      refine ⟨?_, ?_, ?_, ?_, ?_, ?_⟩
      · rw [heq]; exact hcons
      · rw [heq]; omega
      · intro _
        rw [heq]
        rfl
      · intro hmem
        exact absurd hmem hc
      · exact List.nodup_nil
      · simp [clear_command_history]

/-- Witness for C10 on the concrete history `["show"]`. -/
theorem command_history_invariant_witness :
    (add_to_command_history [("show")] ("help")).Nodup
    ∧ (add_to_command_history [("show")] ("help")).length ≤ 20
    ∧ (("help" : String) ∉ [("show")] →
        (add_to_command_history [("show")] ("help")).head? = some ("help"))
    ∧ (("help" : String) ∈ [("show")] →
        add_to_command_history [("show")] ("help")= [("show")])
    ∧ (clear_command_history [("show")]).Nodup
    ∧ (clear_command_history [("show")]).length ≤ 20 :=
  command_history_invariant [("show")] ("help") (by decide) (by decide)
